import Mathlib

/-!
Shallow embedding of the Component Consolidation & Alignment Engine from
`prototypes/ui_semantic_patch/scripts/omni_vlm_fusion.py`:

* `apply_vlm_operations`  — turns planner operations (merge/delete/keep) over
  raw detector components into a final component list plus an operation log;
* `fix_component_bounds`  — legacy path re-deriving trustworthy bounds for
  planner components that carry their own (untrusted) coordinates;
* `validate_and_fix_text_assignments` — detects and repairs a constant
  index-shift between planner text assignments and the original OCR text.

Modelling conventions, stated once:
* Python dicts holding component fields become a `Component` structure whose
  optional keys are `Option` fields; a key that the source reads with
  `dict.get(k, default)` is modelled with `Option.getD`.
* The dict `omni_by_index` (int key -> component) is modelled as an
  association list with Python dict semantics: first-insertion position is
  kept, a later insert with the same key overwrites the value in place.
* Python `set` objects used only for membership are modelled as lists with
  `List.contains` membership.
* Coordinates are integers (`Int`).  The float guard `x + w > img_width * 1.1`
  is modelled exactly over the rationals as `10*(x+w) > 11*W`, which agrees
  with the float comparison on all realistic integer pixel inputs.  The
  `int(x * (img_width / 768.0))` rescale is modelled as truncated integer
  division `(x * W).tdiv 768`; no claim depends on the value this branch
  produces.
* `re.findall(r'\d{3,}', text)` is modelled as the maximal ASCII-digit runs of
  the text, keeping runs of length >= 3; the resulting Python set is a list
  used only through membership and intersection tests.
* In-place mutation of the final component list is modelled by returning a new
  list; the source mutates each position at most once and never reads a field
  it has already written, so the two are equivalent.
-/

namespace OmniVlmFusion

/-- Pixel-space bounding box, origin top-left, as stored under the
`bounds` key of a component dict. -/
structure Bounds where
  x : Int
  y : Int
  width : Int
  height : Int
deriving DecidableEq, Repr

/-- A UI component dict.  Mandatory keys of the data model are plain fields;
keys that may be absent are `Option` fields (`none` = key absent). -/
structure Component where
  index : Nat
  cls : String
  bounds : Bounds
  text : String
  clickable : Bool
  source_indices : List Nat
  original_index : Option Nat
  note : Option String
  text_fix : Option String
  text_before_fix : Option String
  text_unverified : Bool
  bounds_source : Option String
deriving DecidableEq, Repr

/-- Default component used only as the `List.getD` fallback in statements. -/
def defaultComponent : Component :=
  { index := 0, cls := "", bounds := ⟨0, 0, 0, 0⟩, text := "", clickable := false,
    source_indices := [], original_index := none, note := none,
    text_fix := none, text_before_fix := none, text_unverified := false,
    bounds_source := none }

instance : Inhabited Component := ⟨defaultComponent⟩

/-- A planner operation dict: `action` is a free-form string (unknown actions
are tolerated), `indices` defaults to `[]` when absent. -/
structure Operation where
  action : String
  indices : List Nat
  target_class : Option String
  target_text : Option String
  reason : Option String
deriving DecidableEq, Repr

/-- One entry of the merge log produced by `apply_vlm_operations`:
merge entries carry `from`/`to`, delete entries carry `indices`. -/
structure LogEntry where
  action : String
  from_indices : Option (List Nat)
  to_index : Option Nat
  indices : Option (List Nat)
  reason : String
deriving DecidableEq, Repr

/-! ### Python dict over integer keys -/

/-- Association list with Python dict semantics (insertion order kept). -/
abbrev IndexMap := List (Nat × Component)

/-- `d[k]` lookup. -/
def dictGet (d : IndexMap) (k : Nat) : Option Component :=
  (d.find? (fun p => p.1 == k)).map (fun p => p.2)

/-- `k in d` membership test. -/
def dictMem (d : IndexMap) (k : Nat) : Bool :=
  (d.find? (fun p => p.1 == k)).isSome

/-- `d[k] = v`: overwrite in place if the key exists, else append. -/
def dictInsert (d : IndexMap) (k : Nat) (v : Component) : IndexMap :=
  if dictMem d k then d.map (fun p => if p.1 == k then (k, v) else p)
  else d ++ [(k, v)]

/-- `{comp.get('index', i): comp for i, comp in enumerate(omni_components)}`.
The `index` key is mandatory in this model, so the positional fallback of
`get('index', i)` never fires. -/
def buildIndexMap (cs : List Component) : IndexMap :=
  cs.foldl (fun d c => dictInsert d c.index c) []

/-! ### Python `min` / `max` over nonempty lists -/

/-- Python `min(xs)` for a nonempty list (0 on `[]`, a case the source
guards against). -/
def listMin : List Int → Int
  | [] => 0
  | x :: xs => xs.foldl min x

/-- Python `max(xs)` for a nonempty list (0 on `[]`). -/
def listMax : List Int → Int
  | [] => 0
  | x :: xs => xs.foldl max x

/-- Python `min(xs)` over naturals (0 on `[]`). -/
def listMinNat : List Nat → Nat
  | [] => 0
  | x :: xs => xs.foldl min x

/-- Python `max(xs)` over naturals (0 on `[]`). -/
def listMaxNat : List Nat → Nat
  | [] => 0
  | x :: xs => xs.foldl max x

/-! ### `apply_vlm_operations` -/

/-- `[omni_by_index[idx] for idx in indices if idx in omni_by_index]`. -/
def resolveIndices (omni : IndexMap) (indices : List Nat) : List Component :=
  indices.filterMap (fun i => dictGet omni i)

/-- Loop state of `apply_vlm_operations`: accumulated output components,
merge log, and the set of already-consumed raw indices. -/
structure ApplyState where
  finals : List Component
  log : List LogEntry
  processed : List Nat
deriving DecidableEq, Repr

/-- One iteration of the `keep` branch body: `if idx in omni_by_index and
idx not in processed_indices: ...` (copy, retag, append). -/
def keepStep (omni : IndexMap) (s : ApplyState) (idx : Nat) : ApplyState :=
  if dictMem omni idx && !(s.processed.contains idx) then
    match dictGet omni idx with
    | some orig =>
        { s with
          finals := s.finals ++
            [{ orig with
               index := s.finals.length
               original_index := some idx }]
          processed := s.processed ++ [idx] }
    | none => s
  else s

/-- Body of the `keep` branch: `for idx in indices: ...`. -/
def applyKeep (omni : IndexMap) (st : ApplyState) (indices : List Nat) : ApplyState :=
  indices.foldl (keepStep omni) st

/-- One iteration of the `for op in operations` loop of
`apply_vlm_operations`. -/
def applyOp (omni : IndexMap) (st : ApplyState) (op : Operation) : ApplyState :=
  if op.action == "merge" && !op.indices.isEmpty then
    let source_comps := resolveIndices omni op.indices
    if source_comps.isEmpty then st
    else
      let min_x := listMin (source_comps.map (fun c => c.bounds.x))
      let min_y := listMin (source_comps.map (fun c => c.bounds.y))
      let max_x := listMax (source_comps.map (fun c => c.bounds.x + c.bounds.width))
      let max_y := listMax (source_comps.map (fun c => c.bounds.y + c.bounds.height))
      let texts := (source_comps.filter (fun c => c.text ≠ "")).map (fun c => c.text)
      let merged_text := op.target_text.getD (String.intercalate " " texts)
      let clickable := source_comps.any (fun c => c.clickable)
      let merged : Component :=
        { index := st.finals.length,
          cls := op.target_class.getD "Card",
          bounds := ⟨min_x, min_y, max_x - min_x, max_y - min_y⟩,
          text := merged_text,
          clickable := clickable,
          source_indices := op.indices,
          original_index := none,
          note := some (op.reason.getD ""),
          text_fix := none, text_before_fix := none, text_unverified := false,
          bounds_source := none }
      { finals := st.finals ++ [merged],
        log := st.log ++
          [{ action := "merge", from_indices := some op.indices,
             to_index := some merged.index, indices := none,
             reason := op.reason.getD "" }],
        processed := st.processed ++ op.indices }
  else if op.action == "delete" && !op.indices.isEmpty then
    { st with
      log := st.log ++
        [{ action := "delete", from_indices := none, to_index := none,
           indices := some op.indices, reason := op.reason.getD "" }],
      processed := st.processed ++ op.indices }
  else if op.action == "keep" && !op.indices.isEmpty then
    applyKeep omni st op.indices
  else st

/-- Annotation placed on raw components no operation consumed
(the source string, verbatim). -/
def implicitKeepNote : String := "未被 VLM 处理，默认保留"

/-- One iteration of the implicit-keep loop: skip processed indices, else
append an annotated copy. -/
def implicitKeepStep (processed : List Nat) (finals : List Component)
    (p : Nat × Component) : List Component :=
  if processed.contains p.1 then finals
  else
    finals ++
      [{ p.2 with
         index := finals.length
         original_index := some p.1
         note := some implicitKeepNote }]

/-- `for idx, comp in omni_by_index.items(): if idx not in processed_indices:
append a copy annotated as an implicit keep`. -/
def addImplicitKeeps (omni : IndexMap) (st : ApplyState) : List Component :=
  omni.foldl (implicitKeepStep st.processed) st.finals

/-- Lexicographic order on the sort key `(y, x)` of a bounding box. -/
def boundsLe (a b : Bounds) : Prop :=
  a.y < b.y ∨ (a.y = b.y ∧ a.x ≤ b.x)

instance : DecidableRel boundsLe := fun a b => by
  unfold boundsLe; infer_instance

/-- The comparison `final_components.sort(key=lambda c: (c['bounds']['y'],
c['bounds']['x']))` sorts by. -/
def sortKeyLe (a b : Component) : Prop :=
  boundsLe a.bounds b.bounds

instance : DecidableRel sortKeyLe := fun a b => by
  unfold sortKeyLe; infer_instance

instance : IsTotal Component sortKeyLe :=
  ⟨fun a b => by
    unfold sortKeyLe boundsLe
    rcases lt_trichotomy a.bounds.y b.bounds.y with h | h | h
    · exact Or.inl (Or.inl h)
    · rcases le_total a.bounds.x b.bounds.x with hx | hx
      · exact Or.inl (Or.inr ⟨h, hx⟩)
      · exact Or.inr (Or.inr ⟨h.symm, hx⟩)
    · exact Or.inr (Or.inl h)⟩

instance : IsTrans Component sortKeyLe :=
  ⟨fun a b c hab hbc => by
    unfold sortKeyLe boundsLe at *
    rcases hab with h1 | ⟨h1, h1x⟩ <;> rcases hbc with h2 | ⟨h2, h2x⟩
    · exact Or.inl (h1.trans h2)
    · exact Or.inl (h2 ▸ h1)
    · exact Or.inl (h1 ▸ h2)
    · exact Or.inr ⟨h1.trans h2, h1x.trans h2x⟩⟩

/-- `for i, comp in enumerate(final_components): comp['index'] = i`. -/
def reindex (cs : List Component) : List Component :=
  cs.mapIdx (fun i c => { c with index := i })

/-- The loop state after all operations have been processed. -/
def runOps (operations : List Operation) (omni : IndexMap) : ApplyState :=
  operations.foldl (applyOp omni) ⟨[], [], []⟩

/-- `apply_vlm_operations(operations, omni_components)`: process the
operations, append implicit keeps, sort by `(y, x)`, reindex.  Python
`list.sort` with a key is a stable sort; a stable sort by a total preorder
is a unique function of its input, here realised by the structurally
recursive stable `List.insertionSort`. -/
def apply_vlm_operations (operations : List Operation)
    (omni_components : List Component) : List Component × List LogEntry :=
  let omni := buildIndexMap omni_components
  let st := runOps operations omni
  let finals := addImplicitKeeps omni st
  let sorted := List.insertionSort sortKeyLe finals
  (reindex sorted, st.log)

/-! ### `fix_component_bounds` -/

/-- The guard `x + w > img_width * 1.1 or y + h > img_height * 1.1
or w > img_width or h > img_height` (the 1.1 factor written as 11/10). -/
def coordsInvalid (b : Bounds) (imgWidth imgHeight : Int) : Bool :=
  10 * (b.x + b.width) > 11 * imgWidth ||
  10 * (b.y + b.height) > 11 * imgHeight ||
  b.width > imgWidth || b.height > imgHeight

/-- Python substring test `needle in hay` on strings. -/
def strContains (hay needle : String) : Bool :=
  hay.toList.tails.any (fun t => needle.toList.isPrefixOf t)

/-- The text-match recovery of `fix_component_bounds`: first pass looks for
an exact text match, second pass for a containment match. -/
def findTextMatch (omni_components : List Component) (comp_text : String) :
    Option Component :=
  match omni_components.find? (fun orig => orig.text == comp_text && comp_text ≠ "") with
  | some m => some m
  | none =>
      if comp_text ≠ "" then
        omni_components.find?
          (fun orig =>
            orig.text ≠ "" &&
            (strContains comp_text orig.text || strContains orig.text comp_text))
      else none

/-- The `if coords_invalid:` recovery block: adopt a text-matched raw
component's bounds, else rescale assuming a 768-wide reference, else leave
the component untouched. -/
def fixInvalidBranch (omni_components : List Component) (imgWidth : Int)
    (comp : Component) : Component :=
  match findTextMatch omni_components comp.text with
  | some m => { comp with bounds := m.bounds, bounds_source := some "matched_from_omni" }
  | none =>
      if comp.bounds.width > 0 && comp.bounds.x + comp.bounds.width ≤ 800 then
        { comp with
          bounds :=
            ⟨(comp.bounds.x * imgWidth).tdiv 768,
             (comp.bounds.y * imgWidth).tdiv 768,
             (comp.bounds.width * imgWidth).tdiv 768,
             (comp.bounds.height * imgWidth).tdiv 768⟩,
          bounds_source := some "scaled_from_768" }
      else comp

/-- One iteration of the `for comp in vlm_components` loop of
`fix_component_bounds`. -/
def fixOne (omni : IndexMap) (omni_components : List Component)
    (imgWidth imgHeight : Int) (comp : Component) : Component :=
  if !comp.source_indices.isEmpty &&
      !(resolveIndices omni comp.source_indices).isEmpty then
    let source_comps := resolveIndices omni comp.source_indices
    let min_x := listMin (source_comps.map (fun c => c.bounds.x))
    let min_y := listMin (source_comps.map (fun c => c.bounds.y))
    let max_x := listMax (source_comps.map (fun c => c.bounds.x + c.bounds.width))
    let max_y := listMax (source_comps.map (fun c => c.bounds.y + c.bounds.height))
    { comp with bounds := ⟨min_x, min_y, max_x - min_x, max_y - min_y⟩ }
  else if coordsInvalid comp.bounds imgWidth imgHeight then
    fixInvalidBranch omni_components imgWidth comp
  else comp

/-- `fix_component_bounds(vlm_components, omni_components, w, h)`. -/
def fix_component_bounds (vlm_components omni_components : List Component)
    (imgWidth imgHeight : Int) : List Component :=
  vlm_components.map
    (fixOne (buildIndexMap omni_components) omni_components imgWidth imgHeight)

/-! ### `validate_and_fix_text_assignments` -/

/-- Maximal digit runs of a character list (helper for `extract_nums`). -/
def digitRuns : List Char → List Char → List (List Char)
  | [], acc => if acc.isEmpty then [] else [acc.reverse]
  | c :: rest, acc =>
      if c.isDigit then digitRuns rest (c :: acc)
      else (if acc.isEmpty then [] else [acc.reverse]) ++ digitRuns rest []

/-- `set(re.findall(r'\d{3,}', text))`: maximal digit runs of length >= 3
(a Python set used only through membership, modelled as a list). -/
def extract_nums (text : String) : List String :=
  (digitRuns text.toList []).filterMap
    (fun r => if r.length ≥ 3 then some (String.mk r) else none)

/-- `' '.join(omni_map[i].get('text','') for i in indices if i in omni_map
and omni_map[i].get('text'))`, where `indices` is `source_indices` or the
singleton `original_index`. -/
def get_source_ocr (omni : IndexMap) (comp : Component) : String :=
  let indices :=
    if !comp.source_indices.isEmpty then comp.source_indices
    else match comp.original_index with
      | some i => [i]
      | none => []
  String.intercalate " "
    (indices.filterMap
      (fun i =>
        match dictGet omni i with
        | some c => if c.text ≠ "" then some c.text else none
        | none => none))

/-- The test `not new_text.strip()`: true iff every character is
whitespace, i.e. stripping leaves the empty string. -/
def isBlank (s : String) : Bool :=
  s.toList.all (fun c => c.isWhitespace)

/-- Numeric-token sets of the displayed texts, `vn` in the source. -/
def vnOf (final_components : List Component) : List (List String) :=
  final_components.map (fun c => extract_nums c.text)

/-- Numeric-token sets of the original OCR texts, `on` in the source. -/
def onOf (final_components omni_components : List Component) : List (List String) :=
  final_components.map
    (fun c => extract_nums (get_source_ocr (buildIndexMap omni_components) c))

/-- Nonempty-intersection test for the modelled token sets. -/
def setInter (a b : List String) : Bool :=
  a.any (fun x => b.contains x)

/-- `score_shift(shift)`: +1 per matching anchor pair, -1 per conflicting
one, over all positions where both token sets are nonempty. -/
def score_shift (vn onn : List (List String)) (shift : Int) : Int :=
  (List.range vn.length).foldl
    (fun (acc : Int) (i : Nat) =>
      let j : Int := (i : Int) + shift
      if 0 ≤ j && j < (vn.length : Int) then
        let vni := vn.getD i []
        let onj := onn.getD j.toNat []
        if !vni.isEmpty && !onj.isEmpty then
          if setInter vni onj then acc + 1 else acc - 1
        else acc
      else acc)
    0

/-- The shift-selection loop: start from `(0, score(0))`, replace only on a
strictly greater score, candidates tried in the order `[1, -1, 2, -2]`. -/
def pickShiftPair (vn onn : List (List String)) : Int × Int :=
  ([1, -1, 2, -2] : List Int).foldl
    (fun best s =>
      let score := score_shift vn onn s
      if score > best.2 then (s, score) else best)
    (0, score_shift vn onn 0)

/-- `best_shift` after the selection loop. -/
def pick_shift (vn onn : List (List String)) : Int :=
  (pickShiftPair vn onn).1

/-- Positions with a confirmed numeric-token conflict at shift 0
(`conflicts` in the source). -/
def conflictsAt0 (vn onn : List (List String)) : List Nat :=
  (List.range vn.length).filter
    (fun i =>
      !(vn.getD i []).isEmpty && !(onn.getD i []).isEmpty &&
      !setInter (vn.getD i []) (onn.getD i []))

/-- Confirmed correct alignment at shift 0: both token sets nonempty and
intersecting (the backward-walk stop condition). -/
def confirmedAt (vn onn : List (List String)) (i : Nat) : Bool :=
  !(vn.getD i []).isEmpty && !(onn.getD i []).isEmpty &&
  setInter (vn.getD i []) (onn.getD i [])

/-- The backward-extension loop over `k in range(1, abs(best_shift)*2+1)`:
each step moves the window start one index left unless the candidate is
below 0 or shows confirmed correct alignment. -/
def extendStart (vn onn : List (List String)) : Nat → Nat → Nat
  | rs, 0 => rs
  | rs, steps + 1 =>
      if rs = 0 then rs
      else if confirmedAt vn onn (rs - 1) then rs
      else extendStart vn onn (rs - 1) steps

/-- Steps 2 of the validator: the affected window `(range_start, range_end)`
derived from the shift-0 conflicts, or `none` when there are none. -/
def computeWindow (vn onn : List (List String)) (best_shift : Int) :
    Option (Nat × Nat) :=
  let conflicts := conflictsAt0 vn onn
  if conflicts.isEmpty then none
  else
    let range_end := listMaxNat conflicts
    let origin := listMinNat conflicts
    some (extendStart vn onn origin (best_shift.natAbs * 2), range_end)

/-- `affected = list(range(range_start, range_end + 1))`. -/
def affectedOf (range_start range_end : Nat) : List Nat :=
  (List.range (range_end + 1 - range_start)).map (fun k => k + range_start)

/-- `original_vlm = [vlm_texts[i] for i in affected]`, the pre-correction
snapshot of the window texts. -/
def originalVlmOf (vlm_texts : List String) (range_start range_end : Nat) :
    List String :=
  (affectedOf range_start range_end).map (fun i => vlm_texts.getD i "")

/-- The body of the rotation loop at one list index `i` (a component outside
the window is untouched; the source's loop simply never visits it). -/
def rotateIdx (omni : IndexMap) (original_vlm : List String) (rng_size : Nat)
    (best_shift : Int) (range_start range_end : Nat) (i : Nat)
    (comp : Component) : Component :=
  if range_start ≤ i ∧ i ≤ range_end then
    let pos := i - range_start
    let source_pos : Int := (pos : Int) - best_shift
    if 0 ≤ source_pos ∧ source_pos < (rng_size : Int) then
      let new_text := original_vlm.getD source_pos.toNat ""
      if comp.text ≠ new_text then
        { comp with
          text := new_text
          text_before_fix := some comp.text
          text_fix := some ("shift_" ++ toString best_shift) }
      else comp
    else
      let new_text := get_source_ocr omni comp
      if isBlank new_text then { comp with text_unverified := true }
      else if comp.text ≠ new_text then
        { comp with
          text := new_text
          text_before_fix := some comp.text
          text_fix := some ("shift_" ++ toString best_shift) }
      else comp
  else comp

/-- Step 3 of the validator: rotate texts inside the window. -/
def applyRotation (omni : IndexMap) (final_components : List Component)
    (best_shift : Int) (range_start range_end : Nat) : List Component :=
  final_components.mapIdx
    (rotateIdx omni
      (originalVlmOf (final_components.map (fun c => c.text))
        range_start range_end)
      (affectedOf range_start range_end).length
      best_shift range_start range_end)

/-- `validate_and_fix_text_assignments(final_components, omni_components)`. -/
def validate_and_fix_text_assignments
    (final_components omni_components : List Component) : List Component :=
  if final_components.length < 3 then final_components
  else
    let vn := vnOf final_components
    let onn := onOf final_components omni_components
    let best_shift := pick_shift vn onn
    if best_shift = 0 then final_components
    else
      match computeWindow vn onn best_shift with
      | none => final_components
      | some (range_start, range_end) =>
          applyRotation (buildIndexMap omni_components) final_components
            best_shift range_start range_end

/-! ### Derived notions used only in statements -/

/-- `o` is `c` rewritten to text `t` under shift `s`, with the correction
markers set exactly when the text changed: if `c` already carried `t`, `o`
is `c` untouched; otherwise `o` is `c` with new text, `_text_before_fix`
and `_text_fix`. -/
def rewrittenTo (s : Int) (c o : Component) (t : String) : Prop :=
  o.text = t ∧
  (c.text = t → o = c) ∧
  (c.text ≠ t →
    o = { c with
          text := t
          text_before_fix := some c.text
          text_fix := some ("shift_" ++ toString s) })

/-- Axis-aligned containment: `inner` lies inside `outer`. -/
def insideBox (inner outer : Bounds) : Prop :=
  outer.x ≤ inner.x ∧ outer.y ≤ inner.y ∧
  inner.x + inner.width ≤ outer.x + outer.width ∧
  inner.y + inner.height ≤ outer.y + outer.height

/-- Projection to the fields an implicit keep must carry or preserve. -/
def keepView (c : Component) : Option Nat × Option String × String × Bounds × String :=
  (c.original_index, c.note, c.text, c.bounds, c.cls)

/-- Projection to the fields the empty-operations identity preserves. -/
def viewTBC (c : Component) : String × Bounds × String :=
  (c.text, c.bounds, c.cls)

/-! ### Concrete instances for witnesses and counterexamples -/

/-- A raw detector component with the given index, box and text. -/
def mkRaw (i : Nat) (x y w h : Int) (t : String) : Component :=
  { defaultComponent with index := i, bounds := ⟨x, y, w, h⟩, text := t }

/-- A final component with the given index, text and `original_index`. -/
def mkFin (i : Nat) (t : String) (oi : Nat) : Component :=
  { defaultComponent with index := i, text := t, original_index := some oi }

def c1RawA : Component := mkRaw 0 10 5 20 10 "$"
def c1RawB : Component := mkRaw 1 35 2 30 12 "199"
def c1Op : Operation :=
  { action := "merge", indices := [0, 1], target_class := some "Label",
    target_text := none, reason := some "price" }
def c1Comp : Component := { defaultComponent with source_indices := [0, 1] }

def c2Raw : Component := mkRaw 0 1 1 5 5 "t"
def c2OpA : Operation :=
  { action := "merge", indices := [0], target_class := none,
    target_text := none, reason := none }
def c2OpB : Operation :=
  { action := "merge", indices := [0], target_class := none,
    target_text := some "second", reason := none }
def c2Keep : Operation :=
  { action := "keep", indices := [0], target_class := none,
    target_text := none, reason := none }

def c3Raw : Component := mkRaw 0 1 1 5 5 "t"
def c3Op : Operation :=
  { action := "split", indices := [0], target_class := none,
    target_text := none, reason := none }

def c4Fin : List Component := [mkFin 0 "111" 0, mkFin 1 "222" 1, mkFin 2 "333" 2]
def c4Omni : List Component :=
  [mkRaw 0 0 0 1 1 "999", mkRaw 1 0 1 1 1 "111", mkRaw 2 0 2 1 1 "888"]
def c4CalmFin : List Component := [mkFin 0 "a" 0, mkFin 1 "b" 1, mkFin 2 "c" 2]

def c5Fin : List Component := [mkFin 0 "444" 0, mkFin 1 "555" 1, mkFin 2 "666" 2]
def c5Omni : List Component :=
  [mkRaw 0 0 0 1 1 "777", mkRaw 1 0 1 1 1 "444", mkRaw 2 0 2 1 1 "888"]

def c6Fin : List Component :=
  [mkFin 0 "a" 0, mkFin 1 "b" 1, mkFin 2 "c" 2, mkFin 3 "d" 3, mkFin 4 "e" 4,
   mkFin 5 "111" 5, mkFin 6 "333" 6, mkFin 7 "x" 7]
def c6Omni : List Component :=
  [mkRaw 0 0 0 1 1 "", mkRaw 1 0 1 1 1 "", mkRaw 2 0 2 1 1 "",
   mkRaw 3 0 3 1 1 "", mkRaw 4 0 4 1 1 "", mkRaw 5 0 5 1 1 "222",
   mkRaw 6 0 6 1 1 "111", mkRaw 7 0 7 1 1 "333"]

def c7Raw : List Component :=
  [mkRaw 0 50 10 5 5 "b", mkRaw 1 10 10 5 5 "a", mkRaw 2 5 5 5 5 "c"]

def c8Raw : Component := mkRaw 0 1 1 5 5 "t"
def c8Op : Operation :=
  { action := "merge", indices := [99], target_class := none,
    target_text := none, reason := none }

def c9Comp : Component :=
  { defaultComponent with text := "zzz", bounds := ⟨0, 0, 2000, 50⟩ }
def c9Raw : Component := mkRaw 0 5 5 10 10 "aaa"

def c10Fin : List Component := [mkFin 0 "123" 0, mkFin 1 "456" 1]
def c10Omni : List Component := [mkRaw 0 0 0 1 1 "456", mkRaw 1 0 1 1 1 "123"]

/-! ## Helper lemmas on folded minima and maxima -/

theorem foldl_min_le_init {α : Type} [LinearOrder α] (l : List α) (a : α) :
    l.foldl min a ≤ a := by
  induction l generalizing a with
  | nil => simp
  | cons x xs ih => exact le_trans (ih (min a x)) (min_le_left a x)

theorem foldl_min_le_mem {α : Type} [LinearOrder α] {l : List α} {x : α}
    (a : α) (h : x ∈ l) : l.foldl min a ≤ x := by
  induction l generalizing a with
  | nil => cases h
  | cons y ys ih =>
      rcases List.mem_cons.mp h with rfl | hy
      · exact le_trans (foldl_min_le_init ys (min a x)) (min_le_right a x)
      · exact ih (min a y) hy

theorem le_foldl_min {α : Type} [LinearOrder α] {l : List α} {a b : α}
    (ha : b ≤ a) (h : ∀ x ∈ l, b ≤ x) : b ≤ l.foldl min a := by
  induction l generalizing a with
  | nil => exact ha
  | cons y ys ih =>
      exact ih (le_min ha (h y (List.mem_cons_self y ys)))
        (fun x hx => h x (List.mem_cons_of_mem y hx))

theorem foldl_max_init_le {α : Type} [LinearOrder α] (l : List α) (a : α) :
    a ≤ l.foldl max a := by
  induction l generalizing a with
  | nil => simp
  | cons x xs ih => exact le_trans (le_max_left a x) (ih (max a x))

theorem foldl_max_mem_le {α : Type} [LinearOrder α] {l : List α} {x : α}
    (a : α) (h : x ∈ l) : x ≤ l.foldl max a := by
  induction l generalizing a with
  | nil => cases h
  | cons y ys ih =>
      rcases List.mem_cons.mp h with rfl | hy
      · exact le_trans (le_max_right a x) (foldl_max_init_le ys (max a x))
      · exact ih (max a y) hy

theorem foldl_max_le {α : Type} [LinearOrder α] {l : List α} {a b : α}
    (ha : a ≤ b) (h : ∀ x ∈ l, x ≤ b) : l.foldl max a ≤ b := by
  induction l generalizing a with
  | nil => exact ha
  | cons y ys ih =>
      exact ih (max_le ha (h y (List.mem_cons_self y ys)))
        (fun x hx => h x (List.mem_cons_of_mem y hx))

theorem foldl_max_mem {α : Type} [LinearOrder α] (l : List α) (a : α) :
    l.foldl max a = a ∨ l.foldl max a ∈ l := by
  induction l generalizing a with
  | nil => exact Or.inl rfl
  | cons x xs ih =>
      rcases ih (max a x) with h | h
      · rcases max_choice a x with hc | hc
        · exact Or.inl (h.trans hc)
        · exact Or.inr (by rw [List.mem_cons]; exact Or.inl (h.trans hc))
      · exact Or.inr (List.mem_cons_of_mem x h)

theorem listMin_le {xs : List Int} {x : Int} (h : x ∈ xs) : listMin xs ≤ x := by
  cases xs with
  | nil => cases h
  | cons y ys =>
      rcases List.mem_cons.mp h with rfl | hy
      · exact foldl_min_le_init ys x
      · exact foldl_min_le_mem y hy

theorem le_listMin {xs : List Int} {b : Int} (hne : xs ≠ [])
    (h : ∀ x ∈ xs, b ≤ x) : b ≤ listMin xs := by
  cases xs with
  | nil => exact absurd rfl hne
  | cons y ys =>
      exact le_foldl_min (h y (List.mem_cons_self y ys))
        (fun x hx => h x (List.mem_cons_of_mem y hx))

theorem le_listMax {xs : List Int} {x : Int} (h : x ∈ xs) : x ≤ listMax xs := by
  cases xs with
  | nil => cases h
  | cons y ys =>
      rcases List.mem_cons.mp h with rfl | hy
      · exact foldl_max_init_le ys x
      · exact foldl_max_mem_le y hy

theorem listMax_le {xs : List Int} {b : Int} (hne : xs ≠ [])
    (h : ∀ x ∈ xs, x ≤ b) : listMax xs ≤ b := by
  cases xs with
  | nil => exact absurd rfl hne
  | cons y ys =>
      exact foldl_max_le (h y (List.mem_cons_self y ys))
        (fun x hx => h x (List.mem_cons_of_mem y hx))

theorem listMinNat_le {xs : List Nat} {x : Nat} (h : x ∈ xs) :
    listMinNat xs ≤ x := by
  cases xs with
  | nil => cases h
  | cons y ys =>
      rcases List.mem_cons.mp h with rfl | hy
      · exact foldl_min_le_init ys x
      · exact foldl_min_le_mem y hy

theorem listMaxNat_mem {xs : List Nat} (hne : xs ≠ []) :
    listMaxNat xs ∈ xs := by
  cases xs with
  | nil => exact absurd rfl hne
  | cons y ys =>
      rcases foldl_max_mem ys y with h | h
      · rw [listMaxNat, h]; exact List.mem_cons_self y ys
      · exact List.mem_cons_of_mem y h

theorem listMinNat_mem {xs : List Nat} (hne : xs ≠ []) :
    listMinNat xs ∈ xs := by
  cases xs with
  | nil => exact absurd rfl hne
  | cons y ys =>
      have : ys.foldl min y = y ∨ ys.foldl min y ∈ ys := by
        clear hne
        induction ys generalizing y with
        | nil => exact Or.inl rfl
        | cons x xs ih =>
            rcases ih (min y x) with h | h
            · rcases min_choice y x with hc | hc
              · exact Or.inl (h.trans hc)
              · exact Or.inr (by rw [List.mem_cons]; exact Or.inl (h.trans hc))
            · exact Or.inr (List.mem_cons_of_mem x h)
      rcases this with h | h
      · rw [listMinNat, h]; exact List.mem_cons_self y ys
      · exact List.mem_cons_of_mem y h

/-- A nonempty list has `isEmpty = false`. -/
theorem isEmpty_false_of_ne {α : Type} {l : List α} (h : l ≠ []) :
    l.isEmpty = false := by
  cases l with
  | nil => exact absurd rfl h
  | cons a t => rfl

/-! ## C10 -/

/-- C10: for every input list of fewer than 3 final components,
`validate_and_fix_text_assignments` returns the list unchanged — no text
field is modified and no correction marker is added — regardless of the
texts or the raw component set. -/
theorem short_input_returned_unchanged
    (final_components omni_components : List Component)
    (h : final_components.length < 3) :
    validate_and_fix_text_assignments final_components omni_components =
      final_components := by
  unfold validate_and_fix_text_assignments
  rw [if_pos h]

/-- Witness for C10: a 2-component input whose texts are swapped relative to
the OCR (a correction would fire on a longer list) is returned verbatim. -/
theorem short_input_returned_unchanged_witness :
    validate_and_fix_text_assignments c10Fin c10Omni = c10Fin :=
  short_input_returned_unchanged c10Fin c10Omni (by decide)

/-! ## C8 -/

/-- C8 counterexample: the merge operation referencing only the unresolvable
index 99 is skipped, but no log entry records the skip — the merge log is
empty — and the raw component is passed through as an implicit keep. -/
theorem unresolvable_merge_unlogged :
    (apply_vlm_operations [c8Op] [c8Raw]).2 = [] ∧
    (apply_vlm_operations [c8Op] [c8Raw]).1 =
      [{ c8Raw with original_index := some 0, note := some implicitKeepNote }] := by
  decide

/-- C8 amended: a merge operation with zero resolvable indices leaves the
loop state completely untouched — no output component, no log entry, no
consumed index; a merge with at least one resolvable index appends exactly
one log entry whose `from` field records the full requested index list, so
unresolvable indices inside a partly-resolvable merge are dropped without
any log entry of their own. -/
theorem unresolvable_merge_skip_semantics (omni : IndexMap) (st : ApplyState)
    (op : Operation) (ha : op.action = "merge") :
    (resolveIndices omni op.indices = [] → applyOp omni st op = st) ∧
    (resolveIndices omni op.indices ≠ [] →
      (applyOp omni st op).log = st.log ++
        [{ action := "merge", from_indices := some op.indices,
           to_index := some st.finals.length, indices := none,
           reason := op.reason.getD "" }]) := by
  constructor
  · intro hres
    by_cases hind : op.indices.isEmpty = true
    · simp [applyOp, ha, hind]
    · simp [applyOp, ha, Bool.eq_false_iff.mpr hind, hres]
  · intro hres
    have hind : op.indices ≠ [] := by
      intro hI
      exact hres (by rw [hI]; rfl)
    simp [applyOp, ha, isEmpty_false_of_ne hind, isEmpty_false_of_ne hres]

/-- Witness for the C8 theorem: a concrete fully-unresolvable merge leaves
the initial state unchanged. -/
theorem unresolvable_merge_skip_semantics_witness :
    applyOp (buildIndexMap [c8Raw]) ⟨[], [], []⟩ c8Op = ⟨[], [], []⟩ :=
  (unresolvable_merge_skip_semantics (buildIndexMap [c8Raw]) ⟨[], [], []⟩ c8Op
    rfl).1 (by decide)

/-! ## C9 -/

/-- C9 counterexample: a planner component with invalid coordinates
(a 2000-wide box in a 100x100 image), no source indices, no text match
against the raw set and no applicable 768-scale inference is returned
verbatim by `fix_component_bounds` with `_bounds_source` absent — it is
never flagged "unverified". -/
theorem invalid_bounds_no_unverified_flag :
    coordsInvalid c9Comp.bounds 100 100 = true ∧
    findTextMatch [c9Raw] c9Comp.text = none ∧
    fix_component_bounds [c9Comp] [c9Raw] 100 100 = [c9Comp] ∧
    c9Comp.bounds_source = none := by
  decide

/-- C9 amended: when a planner component has invalid coordinates and neither
source-index resolution, nor exact/substring text matching, nor the
768-reference-width scale inference succeeds, `fix_component_bounds` keeps
its coordinates as-is and returns the component completely unchanged — in
particular no `_bounds_source` flag of any kind is added. -/
theorem unrecoverable_bounds_kept_unchanged
    (vlm omni : List Component) (imgWidth imgHeight : Int) (i : Nat)
    (c : Component)
    (hi : i < vlm.length)
    (hc : vlm.getD i defaultComponent = c)
    (hres : resolveIndices (buildIndexMap omni) c.source_indices = [])
    (hinv : coordsInvalid c.bounds imgWidth imgHeight = true)
    (hmatch : findTextMatch omni c.text = none)
    (hscale : (c.bounds.width > 0 && c.bounds.x + c.bounds.width ≤ 800) = false) :
    (fix_component_bounds vlm omni imgWidth imgHeight).getD i defaultComponent =
      c := by
  have h1 : vlm[i]? = some c := by
    rw [List.getD_eq_getElem?_getD, List.getElem?_eq_getElem hi] at hc
    rw [List.getElem?_eq_getElem hi]
    simpa using hc
  rw [fix_component_bounds, List.getD_eq_getElem?_getD, List.getElem?_map, h1]
  simp only [Option.map_some', Option.getD_some]
  simp [fixOne, hres, hinv, fixInvalidBranch, hmatch, hscale]

/-- Witness for the C9 theorem at the concrete unrecoverable component. -/
theorem unrecoverable_bounds_kept_unchanged_witness :
    (fix_component_bounds [c9Comp] [c9Raw] 100 100).getD 0 defaultComponent =
      c9Comp :=
  unrecoverable_bounds_kept_unchanged [c9Comp] [c9Raw] 100 100 0 c9Comp
    (by decide) (by decide) (by decide) (by decide) (by decide) (by decide)

/-! ## C2 -/

/-- C2 counterexample: raw index 0 is referenced by two merge operations and
the second is not a no-op: both merges consume it, so index 0 contributes to
two of the two output components — it is double-counted. -/
theorem duplicate_reference_not_noop :
    ((apply_vlm_operations [c2OpA, c2OpB] [c2Raw]).1.filter
        (fun c => c.source_indices.contains 0)).length = 2 ∧
    (apply_vlm_operations [c2OpA, c2OpB] [c2Raw]).1.length = 2 := by
  decide

/-- The keep loop never emits a component for an index already recorded as
consumed: the count of output components tagged with that original index is
unchanged. -/
theorem applyKeep_consumed_count (omni : IndexMap) (idx : Nat) :
    ∀ (indices : List Nat) (st : ApplyState),
      st.processed.contains idx = true →
      ((applyKeep omni st indices).finals.filter
          (fun c => c.original_index == some idx)).length =
        (st.finals.filter (fun c => c.original_index == some idx)).length := by
  intro indices
  induction indices with
  | nil => intro st _; rfl
  | cons j rest ih =>
      intro st h
      have hstep :
          applyKeep omni st (j :: rest) =
            applyKeep omni (keepStep omni st j) rest := rfl
      rw [hstep]
      by_cases hcond : (dictMem omni j && !(st.processed.contains j)) = true
      · have hj : st.processed.contains j = false := by
          have h2 := (Bool.and_eq_true _ _).mp hcond |>.2
          simpa using h2
        have hne : j ≠ idx := by
          intro hji
          rw [hji, h] at hj
          cases hj
        cases hget : dictGet omni j with
        | none =>
            have : keepStep omni st j = st := by
              unfold keepStep
              rw [if_pos hcond, hget]
            rw [this]
            exact ih st h
        | some orig =>
            have hks : keepStep omni st j =
                { st with
                  finals := st.finals ++
                    [{ orig with
                       index := st.finals.length
                       original_index := some j }]
                  processed := st.processed ++ [j] } := by
              unfold keepStep
              rw [if_pos hcond, hget]
            rw [hks]
            have hcontains :
                (st.processed ++ [j]).contains idx = true := by
              simp only [List.contains_eq_any_beq, List.any_append,
                Bool.or_eq_true] at h ⊢
              exact Or.inl h
            rw [ih _ hcontains]
            simp only [List.filter_append, List.length_append]
            have hbeq : (({ orig with
                index := st.finals.length
                original_index := some j } : Component).original_index ==
                  some idx) = false := by
              exact beq_eq_false_iff_ne.mpr (by simpa using hne)
            simp [List.filter, hbeq]
      · have : keepStep omni st j = st := by
          unfold keepStep
          rw [if_neg hcond]
        rw [this]
        exact ih st h

/-- C2 amended: the first-wins rule holds only against later keep
references — a keep operation referencing an already-consumed raw index is a
no-op for that index — whereas merge and delete operations consume indices
unconditionally, so an index referenced by several merges contributes to
each of their outputs. -/
theorem keep_reference_to_consumed_is_noop (omni : IndexMap) (st : ApplyState)
    (op : Operation) (ha : op.action = "keep") (idx : Nat)
    (hidx : st.processed.contains idx = true) :
    ((applyOp omni st op).finals.filter
        (fun c => c.original_index == some idx)).length =
      (st.finals.filter (fun c => c.original_index == some idx)).length := by
  have he : applyOp omni st op = applyKeep omni st op.indices := by
    by_cases hind : op.indices.isEmpty = true
    · have hI : op.indices = [] := by
        cases hJ : op.indices with
        | nil => rfl
        | cons a t => rw [hJ] at hind; exact absurd hind (by simp)
      simp [applyOp, ha, hI, applyKeep]
    · simp [applyOp, ha, Bool.eq_false_iff.mpr hind]
  rw [he]
  exact applyKeep_consumed_count omni idx op.indices st hidx

/-- Witness for the C2 theorem: a keep of the already-consumed index 0 adds
no component tagged with original index 0. -/
theorem keep_reference_to_consumed_is_noop_witness :
    ((applyOp (buildIndexMap [c2Raw]) ⟨[], [], [0]⟩ c2Keep).finals.filter
        (fun c => c.original_index == some 0)).length =
      ((⟨[], [], [0]⟩ : ApplyState).finals.filter
        (fun c => c.original_index == some 0)).length :=
  keep_reference_to_consumed_is_noop (buildIndexMap [c2Raw]) ⟨[], [], [0]⟩
    c2Keep rfl 0 (by decide)

/-! ## C4 -/

/-- C4 counterexample: on this input every candidate shift (0 included)
scores at most 0, yet the validator still rewrites texts — shift +1 merely
scores better than the negative score of shift 0, which the selection loop
accepts. -/
theorem correction_without_positive_score :
    (∀ s ∈ ([0, 1, -1, 2, -2] : List Int),
        score_shift (vnOf c4Fin) (onOf c4Fin c4Omni) s ≤ 0) ∧
    validate_and_fix_text_assignments c4Fin c4Omni ≠ c4Fin := by
  decide

/-- If no candidate scores strictly above the score of shift 0, the
selection loop keeps shift 0. -/
theorem pick_shift_zero_of_no_improvement (vn onn : List (List String))
    (h1 : score_shift vn onn 1 ≤ score_shift vn onn 0)
    (h2 : score_shift vn onn (-1) ≤ score_shift vn onn 0)
    (h3 : score_shift vn onn 2 ≤ score_shift vn onn 0)
    (h4 : score_shift vn onn (-2) ≤ score_shift vn onn 0) :
    pick_shift vn onn = 0 := by
  have e : pickShiftPair vn onn = (0, score_shift vn onn 0) := by
    unfold pickShiftPair
    simp only [List.foldl_cons, List.foldl_nil]
    rw [if_neg (not_lt.mpr h1), if_neg (not_lt.mpr h2),
      if_neg (not_lt.mpr h3), if_neg (not_lt.mpr h4)]
  rw [pick_shift, e]

/-- C4 amended: the validator corrects only when some nonzero candidate
shift scores strictly above the score of shift 0 (not necessarily above
zero); whenever no candidate strictly beats shift 0 — in particular on any
tie, including a tie against shift 0 — the input is returned unchanged. -/
theorem no_strict_improvement_is_noop (finals omni : List Component)
    (h : ∀ s ∈ ([1, -1, 2, -2] : List Int),
        score_shift (vnOf finals) (onOf finals omni) s ≤
          score_shift (vnOf finals) (onOf finals omni) 0) :
    validate_and_fix_text_assignments finals omni = finals := by
  by_cases hn : finals.length < 3
  · unfold validate_and_fix_text_assignments
    rw [if_pos hn]
  · have h0 : pick_shift (vnOf finals) (onOf finals omni) = 0 :=
      pick_shift_zero_of_no_improvement _ _
        (h 1 (by simp)) (h (-1) (by simp)) (h 2 (by simp)) (h (-2) (by simp))
    unfold validate_and_fix_text_assignments
    rw [if_neg hn]
    simp only [h0, if_pos]

/-- Witness for the C4 theorem: an anchor-free 3-component input (all
candidate scores are 0, a four-way tie with shift 0) is returned verbatim. -/
theorem no_strict_improvement_is_noop_witness :
    validate_and_fix_text_assignments c4CalmFin c4Omni = c4CalmFin :=
  no_strict_improvement_is_noop c4CalmFin c4Omni (by decide)

/-! ## C6 -/

/-- C6 counterexample: shift +1 is selected and the confirmed conflicts sit
at indices 5 and 6, so the claimed walk would absorb the whole run of
non-confirmed predecessors 0..4; the computed window start is 3 — the walk
stopped after 2·|shift| = 2 steps even though index 2 shows no confirmed
match at shift 0 and index 0 was not reached. -/
theorem backward_walk_not_exhaustive :
    pick_shift (vnOf c6Fin) (onOf c6Fin c6Omni) = 1 ∧
    computeWindow (vnOf c6Fin) (onOf c6Fin c6Omni) 1 = some (3, 6) ∧
    confirmedAt (vnOf c6Fin) (onOf c6Fin c6Omni) 2 = false := by
  decide

/-- Characterization of the backward-extension loop: it moves the window
start left only through non-confirmed indices, takes at most `budget`
steps, and stops early only at a confirmed index or at index 0. -/
theorem extendStart_spec (vn onn : List (List String)) :
    ∀ (budget rs : Nat),
      extendStart vn onn rs budget ≤ rs ∧
      rs ≤ extendStart vn onn rs budget + budget ∧
      (∀ j, extendStart vn onn rs budget ≤ j → j < rs →
        confirmedAt vn onn j = false) ∧
      (extendStart vn onn rs budget = 0 ∨
        rs = extendStart vn onn rs budget + budget ∨
        confirmedAt vn onn (extendStart vn onn rs budget - 1) = true) := by
  intro budget
  induction budget with
  | zero =>
      intro rs
      refine ⟨le_refl _, by simp [extendStart], ?_, Or.inr (Or.inl rfl)⟩
      intro j h1 h2
      have : rs ≤ j := by simpa [extendStart] using h1
      omega
  | succ b ih =>
      intro rs
      by_cases h0 : rs = 0
      · subst h0
        simp only [extendStart, if_pos rfl]
        exact ⟨le_refl _, by omega, fun j h1 h2 => by omega,
          Or.inl rfl⟩
      · by_cases hcf : confirmedAt vn onn (rs - 1) = true
        · have he : extendStart vn onn rs (b + 1) = rs := by
            simp [extendStart, h0, hcf]
          rw [he]
          exact ⟨le_refl _, by omega, fun j h1 h2 => by omega,
            Or.inr (Or.inr hcf)⟩
        · have he : extendStart vn onn rs (b + 1) =
              extendStart vn onn (rs - 1) b := by
            simp [extendStart, h0, hcf]
          rw [he]
          obtain ⟨ih1, ih2, ih3, ih4⟩ := ih (rs - 1)
          refine ⟨by omega, by omega, ?_, ?_⟩
          · intro j h1 h2
            by_cases hj : j = rs - 1
            · subst hj
              exact Bool.eq_false_iff.mpr hcf
            · exact ih3 j h1 (by omega)
          · rcases ih4 with h | h | h
            · exact Or.inl h
            · exact Or.inr (Or.inl (by omega))
            · exact Or.inr (Or.inr h)

/-- C6 amended: when the validator computes a correction window, its end is
the highest confirmed shift-0 conflict index, its start lies at or left of
the lowest conflict index, every index absorbed by the backward walk shows
no confirmed shift-0 match — but the walk is bounded: it absorbs at most
2·|shift| predecessors and stops early only at a confirmed index or at
index 0, so longer runs of non-confirmed predecessors are not fully
absorbed. -/
theorem backward_walk_bounded (vn onn : List (List String)) (s : Int)
    (rs re : Nat) (h : computeWindow vn onn s = some (rs, re)) :
    re = listMaxNat (conflictsAt0 vn onn) ∧
    rs ≤ listMinNat (conflictsAt0 vn onn) ∧
    listMinNat (conflictsAt0 vn onn) ≤ rs + s.natAbs * 2 ∧
    (∀ j, rs ≤ j → j < listMinNat (conflictsAt0 vn onn) →
      confirmedAt vn onn j = false) ∧
    (rs = 0 ∨ listMinNat (conflictsAt0 vn onn) = rs + s.natAbs * 2 ∨
      confirmedAt vn onn (rs - 1) = true) := by
  unfold computeWindow at h
  by_cases hc : (conflictsAt0 vn onn).isEmpty = true
  · rw [if_pos hc] at h
    cases h
  · rw [if_neg hc] at h
    simp only [Option.some.injEq, Prod.mk.injEq] at h
    obtain ⟨h1, h2⟩ := h
    obtain ⟨e1, e2, e3, e4⟩ :=
      extendStart_spec vn onn (s.natAbs * 2) (listMinNat (conflictsAt0 vn onn))
    rw [h1] at e1 e2 e3 e4
    exact ⟨h2.symm, e1, e2, e3, e4⟩

/-- Witness for the C6 theorem: in the counterexample window, the absorbed
index 4 indeed shows no confirmed shift-0 match. -/
theorem backward_walk_bounded_witness :
    confirmedAt (vnOf c6Fin) (onOf c6Fin c6Omni) 4 = false :=
  (backward_walk_bounded (vnOf c6Fin) (onOf c6Fin c6Omni) 1 3 6
    (by decide)).2.2.2.1 4 (by decide) (by decide)

/-! ## C1 -/

/-- `getD` at the length of the left part of an append with a singleton
picks the appended element. -/
theorem getD_append_length {α : Type} (l : List α) (x d : α) :
    (l ++ [x]).getD l.length d = x := by
  simp [List.getD_eq_getElem?_getD, List.getElem?_concat_length]

/-- C1: a merge operation with at least one resolvable index appends exactly
one component, whose box is the minimal axis-aligned rectangle enclosing all
resolved source boxes — it contains each source box, and any rectangle
containing all source boxes contains it — and `fix_component_bounds`
performs the identical recomputation for a planner component carrying the
same resolvable `source_indices`, discarding that component's own
coordinates. -/
theorem merge_box_is_min_enclosing (raw : List Component) (st : ApplyState)
    (op : Operation) (imgWidth imgHeight : Int) (comp m : Component)
    (ha : op.action = "merge")
    (hres : resolveIndices (buildIndexMap raw) op.indices ≠ [])
    (hcomp : comp.source_indices = op.indices)
    (hm : m = (applyOp (buildIndexMap raw) st op).finals.getD
            st.finals.length defaultComponent) :
    (applyOp (buildIndexMap raw) st op).finals.length = st.finals.length + 1 ∧
    m.source_indices = op.indices ∧
    (∀ c ∈ resolveIndices (buildIndexMap raw) op.indices,
        insideBox c.bounds m.bounds) ∧
    (∀ b : Bounds,
        (∀ c ∈ resolveIndices (buildIndexMap raw) op.indices,
          insideBox c.bounds b) →
        insideBox m.bounds b) ∧
    (fixOne (buildIndexMap raw) raw imgWidth imgHeight comp).bounds =
      m.bounds := by
  have hind : op.indices ≠ [] := by
    intro hI
    exact hres (by rw [hI]; rfl)
  set omni := buildIndexMap raw with homni
  set R := resolveIndices omni op.indices with hR
  set mnx := listMin (R.map (fun c => c.bounds.x)) with hmnx
  set mny := listMin (R.map (fun c => c.bounds.y)) with hmny
  set mxx := listMax (R.map (fun c => c.bounds.x + c.bounds.width)) with hmxx
  set mxy := listMax (R.map (fun c => c.bounds.y + c.bounds.height)) with hmxy
  have hfin : (applyOp omni st op).finals = st.finals ++
      [{ index := st.finals.length
         cls := op.target_class.getD "Card"
         bounds := ⟨mnx, mny, mxx - mnx, mxy - mny⟩
         text := op.target_text.getD (String.intercalate " "
           ((R.filter (fun c => c.text ≠ "")).map (fun c => c.text)))
         clickable := R.any (fun c => c.clickable)
         source_indices := op.indices
         original_index := none
         note := some (op.reason.getD "")
         text_fix := none
         text_before_fix := none
         text_unverified := false
         bounds_source := none }] := by
    simp [applyOp, ha, isEmpty_false_of_ne hind, isEmpty_false_of_ne hres,
      ← hR, ← hmnx, ← hmny, ← hmxx, ← hmxy]
  have hmv : m.bounds = ⟨mnx, mny, mxx - mnx, mxy - mny⟩ := by
    rw [hm, hfin, getD_append_length]
  have hmap_ne : ∀ (f : Component → Int), R.map f ≠ [] := by
    intro f hmap
    exact hres (List.map_eq_nil_iff.mp hmap)
  refine ⟨by rw [hfin]; simp, ?_, ?_, ?_, ?_⟩
  · rw [hm, hfin, getD_append_length]
  · intro c hcR
    rw [hmv]
    refine ⟨listMin_le (List.mem_map_of_mem _ hcR),
      listMin_le (List.mem_map_of_mem _ hcR), ?_, ?_⟩
    · have hle : c.bounds.x + c.bounds.width ≤ mxx := by
        rw [hmxx]
        exact le_listMax
          (List.mem_map_of_mem (fun c => c.bounds.x + c.bounds.width) hcR)
      show c.bounds.x + c.bounds.width ≤ mnx + (mxx - mnx)
      omega
    · have hle : c.bounds.y + c.bounds.height ≤ mxy := by
        rw [hmxy]
        exact le_listMax
          (List.mem_map_of_mem (fun c => c.bounds.y + c.bounds.height) hcR)
      show c.bounds.y + c.bounds.height ≤ mny + (mxy - mny)
      omega
  · intro b hb
    rw [hmv]
    have h1 : b.x ≤ mnx := by
      apply le_listMin (hmap_ne _)
      intro x hx
      obtain ⟨c, hcR, rfl⟩ := List.mem_map.mp hx
      exact (hb c hcR).1
    have h2 : b.y ≤ mny := by
      apply le_listMin (hmap_ne _)
      intro x hx
      obtain ⟨c, hcR, rfl⟩ := List.mem_map.mp hx
      exact (hb c hcR).2.1
    have h3 : mxx ≤ b.x + b.width := by
      apply listMax_le (hmap_ne _)
      intro x hx
      obtain ⟨c, hcR, rfl⟩ := List.mem_map.mp hx
      exact (hb c hcR).2.2.1
    have h4 : mxy ≤ b.y + b.height := by
      apply listMax_le (hmap_ne _)
      intro x hx
      obtain ⟨c, hcR, rfl⟩ := List.mem_map.mp hx
      exact (hb c hcR).2.2.2
    exact ⟨h1, h2, by simp; omega, by simp; omega⟩
  · rw [hmv]
    have hcne : comp.source_indices.isEmpty = false :=
      isEmpty_false_of_ne (by rw [hcomp]; exact hind)
    have hrne : (resolveIndices omni comp.source_indices).isEmpty = false := by
      rw [hcomp]
      exact isEmpty_false_of_ne hres
    simp only [fixOne, hcne, hrne, hcomp, ← hR, ← hmnx, ← hmny, ← hmxx, ← hmxy,
      Bool.not_false, Bool.and_self, if_true]
    have hb : (!op.indices.isEmpty && !R.isEmpty) = true := by
      rw [isEmpty_false_of_ne hind, isEmpty_false_of_ne hres]
      rfl
    rw [if_pos hb]

/-- Witness for C1: a concrete two-component merge; `fix_component_bounds`
recomputes exactly the box the merge produced. -/
theorem merge_box_is_min_enclosing_witness :
    (fixOne (buildIndexMap [c1RawA, c1RawB]) [c1RawA, c1RawB] 200 200
        c1Comp).bounds =
      ((applyOp (buildIndexMap [c1RawA, c1RawB]) ⟨[], [], []⟩ c1Op).finals.getD
        0 defaultComponent).bounds :=
  (merge_box_is_min_enclosing [c1RawA, c1RawB] ⟨[], [], []⟩ c1Op 200 200
    c1Comp _ rfl (by decide) (by decide) rfl).2.2.2.2

/-! ## C3 -/

/-- A key absent from the association list is not found. -/
theorem dictMem_false {d : IndexMap} {k : Nat} (h : ∀ p ∈ d, p.1 ≠ k) :
    dictMem d k = false := by
  have hfind : d.find? (fun p => p.1 == k) = none :=
    List.find?_eq_none.mpr (fun p hp => by simpa using h p hp)
  rw [dictMem, hfind]
  rfl

/-- Inserting a fresh key appends the pair at the end. -/
theorem dictInsert_fresh {d : IndexMap} {k : Nat} (v : Component)
    (h : ∀ p ∈ d, p.1 ≠ k) :
    dictInsert d k v = d ++ [(k, v)] := by
  rw [dictInsert, dictMem_false h]
  rfl

/-- Folding `dictInsert` over components with fresh, pairwise-distinct
indices appends them in order. -/
theorem buildFold_eq_append (raw : List Component) :
    ∀ (d : IndexMap),
      (raw.map (fun c => c.index)).Nodup →
      (∀ c ∈ raw, ∀ p ∈ d, p.1 ≠ c.index) →
      raw.foldl (fun acc c => dictInsert acc c.index c) d =
        d ++ raw.map (fun c => (c.index, c)) := by
  induction raw with
  | nil => intro d _ _; simp
  | cons c cs ih =>
      intro d hnodup hfresh
      have hn2 : (cs.map (fun c => c.index)).Nodup :=
        (List.nodup_cons.mp (by simpa using hnodup)).2
      have hni : c.index ∉ cs.map (fun c => c.index) :=
        (List.nodup_cons.mp (by simpa using hnodup)).1
      have hf2 : ∀ c' ∈ cs, ∀ p ∈ d ++ [(c.index, c)], p.1 ≠ c'.index := by
        intro c' hc' p hp
        rcases List.mem_append.mp hp with hd | hsing
        · exact hfresh c' (List.mem_cons_of_mem c hc') p hd
        · have hp2 : p = (c.index, c) := by simpa using hsing
          subst hp2
          intro hEq
          apply hni
          rw [show c.index = c'.index from hEq]
          exact List.mem_map_of_mem (fun c => c.index) hc'
      rw [List.foldl_cons,
        dictInsert_fresh c (fun p hp => hfresh c (List.mem_cons_self c cs) p hp),
        ih (d ++ [(c.index, c)]) hn2 hf2]
      simp

/-- With pairwise-distinct indices, the source dict is exactly the raw list
paired with its indices, in order. -/
theorem buildIndexMap_eq_of_nodup (raw : List Component)
    (hnodup : (raw.map (fun c => c.index)).Nodup) :
    buildIndexMap raw = raw.map (fun c => (c.index, c)) := by
  have h := buildFold_eq_append raw [] hnodup (by intro c _ p hp; cases hp)
  simpa [buildIndexMap] using h

/-- Views already accumulated survive the implicit-keep fold. -/
theorem impKeep_mono (processed : List Nat)
    (x : Option Nat × Option String × String × Bounds × String) :
    ∀ (omni : IndexMap) (init : List Component),
      x ∈ init.map keepView →
      x ∈ (omni.foldl (implicitKeepStep processed) init).map keepView := by
  intro omni
  induction omni with
  | nil => intro init h; exact h
  | cons p rest ih =>
      intro init h
      rw [List.foldl_cons]
      apply ih
      unfold implicitKeepStep
      by_cases hc : processed.contains p.1 = true
      · rw [if_pos hc]; exact h
      · rw [if_neg hc, List.map_append]
        exact List.mem_append_left _ h

/-- An unprocessed dict entry contributes its annotated copy (same text,
bounds, class; `original_index` and note set) to the implicit-keep fold. -/
theorem impKeep_mem (processed : List Nat) (k : Nat) (comp : Component) :
    ∀ (omni : IndexMap) (init : List Component),
      (k, comp) ∈ omni → processed.contains k = false →
      (some k, some implicitKeepNote, comp.text, comp.bounds, comp.cls) ∈
        (omni.foldl (implicitKeepStep processed) init).map keepView := by
  intro omni
  induction omni with
  | nil => intro init h _; cases h
  | cons p rest ih =>
      intro init hmem hk
      rw [List.foldl_cons]
      rcases List.mem_cons.mp hmem with heq | hrest
      · subst heq
        apply impKeep_mono
        unfold implicitKeepStep
        have hcont : processed.contains (k, comp).1 = false := hk
        rw [if_neg (by rw [hcont]; exact Bool.false_ne_true), List.map_append]
        apply List.mem_append_right
        simp [keepView]
      · exact ih _ hrest hk

/-- Reindexing only rewrites `index`: any index-blind projection of the
output list is unchanged. -/
theorem reindex_map_proj {β : Type} (f : Component → β)
    (hf : ∀ (n : Nat) (c : Component), f { c with index := n } = f c)
    (l : List Component) : (reindex l).map f = l.map f := by
  apply List.ext_getElem?
  intro n
  rw [List.getElem?_map, reindex, List.getElem?_mapIdx, Option.map_map,
    List.getElem?_map]
  cases l[n]? with
  | none => rfl
  | some c => simp [Function.comp, hf]

/-- C3: a raw index consumed by no operation — operations with an unknown
action consume nothing at all — survives in the output of
`apply_vlm_operations` as an implicit keep: some output component carries
that `original_index`, the annotation note, and the raw component's text,
bounds and class unchanged. -/
theorem unconsumed_index_implicit_keep (ops : List Operation)
    (raw : List Component)
    (hnodup : (raw.map (fun c => c.index)).Nodup)
    (c : Component) (hc : c ∈ raw)
    (hun : (runOps ops (buildIndexMap raw)).processed.contains c.index = false) :
    ((some c.index, some implicitKeepNote, c.text, c.bounds, c.cls) ∈
        (apply_vlm_operations ops raw).1.map keepView) ∧
    (∀ (st : ApplyState) (op : Operation),
        op.action ≠ "merge" → op.action ≠ "delete" → op.action ≠ "keep" →
        applyOp (buildIndexMap raw) st op = st) := by
  constructor
  · have hout : (apply_vlm_operations ops raw).1 =
        reindex (List.insertionSort sortKeyLe
          (addImplicitKeeps (buildIndexMap raw)
            (runOps ops (buildIndexMap raw)))) := rfl
    rw [hout, reindex_map_proj keepView (fun n c => rfl)]
    have hperm := (List.perm_insertionSort sortKeyLe
      (addImplicitKeeps (buildIndexMap raw)
        (runOps ops (buildIndexMap raw)))).map keepView
    rw [hperm.mem_iff]
    have hkc : (c.index, c) ∈ buildIndexMap raw := by
      rw [buildIndexMap_eq_of_nodup raw hnodup]
      exact List.mem_map_of_mem _ hc
    exact impKeep_mem _ c.index c _ _ hkc hun
  · intro st op h1 h2 h3
    simp [applyOp, beq_eq_false_iff_ne.mpr h1, beq_eq_false_iff_ne.mpr h2,
      beq_eq_false_iff_ne.mpr h3]

/-- Witness for C3: with a single operation of unknown action "split", the
raw component survives as an annotated implicit keep. -/
theorem unconsumed_index_implicit_keep_witness :
    (some c3Raw.index, some implicitKeepNote, c3Raw.text, c3Raw.bounds,
        c3Raw.cls) ∈
      (apply_vlm_operations [c3Op] [c3Raw]).1.map keepView :=
  (unconsumed_index_implicit_keep [c3Op] [c3Raw] (by decide) c3Raw
    (by decide) (by decide)).1

/-! ## C7 -/

/-- With nothing processed, the implicit-keep fold appends an annotated copy
of every dict entry: any index/annotation-blind projection maps to the
initial views followed by the dict values. -/
theorem impKeep_empty_processed_map {β : Type} (f : Component → β)
    (hf : ∀ (n k : Nat) (c : Component),
      f { c with
          index := n
          original_index := some k
          note := some implicitKeepNote } = f c) :
    ∀ (omni : IndexMap) (init : List Component),
      (omni.foldl (implicitKeepStep ([] : List Nat)) init).map f =
        init.map f ++ omni.map (fun p => f p.2) := by
  intro omni
  induction omni with
  | nil => intro init; simp
  | cons p rest ih =>
      intro init
      rw [List.foldl_cons]
      have hstep : implicitKeepStep [] init p =
          init ++ [{ p.2 with
            index := init.length
            original_index := some p.1
            note := some implicitKeepNote }] := rfl
      rw [hstep, ih, List.map_append]
      simp [hf]

/-- Reindexing preserves length. -/
theorem reindex_length (l : List Component) : (reindex l).length = l.length := by
  simp [reindex]

/-- Reindexing assigns the indices 0..N-1 in order. -/
theorem reindex_map_index (l : List Component) :
    (reindex l).map (fun c => c.index) = List.range l.length := by
  apply List.ext_getElem?
  intro n
  rw [List.getElem?_map, reindex, List.getElem?_mapIdx, Option.map_map]
  by_cases h : n < l.length
  · rw [List.getElem?_eq_getElem h, List.getElem?_range h]
    simp [Function.comp]
  · rw [List.getElem?_eq_none (by omega),
      List.getElem?_eq_none (by simpa using not_lt.mp h)]
    simp

/-- C7: on the empty operation list, `apply_vlm_operations` returns exactly
the raw components — text, bounds and class unchanged, as a permutation of
views — sorted ascending by the lexicographic (y, x) order on bounds (so
of two components with equal y, the one with smaller x precedes), and
reindexed 0..N-1. -/
theorem empty_operations_reading_order (raw : List Component)
    (hnodup : (raw.map (fun c => c.index)).Nodup) :
    ((apply_vlm_operations [] raw).1.map viewTBC).Perm (raw.map viewTBC) ∧
    List.Pairwise boundsLe
      ((apply_vlm_operations [] raw).1.map (fun c => c.bounds)) ∧
    (apply_vlm_operations [] raw).1.map (fun c => c.index) =
      List.range (apply_vlm_operations [] raw).1.length := by
  have hout : (apply_vlm_operations [] raw).1 =
      reindex (List.insertionSort sortKeyLe
        (addImplicitKeeps (buildIndexMap raw) ⟨[], [], []⟩)) := rfl
  have hfinview :
      (addImplicitKeeps (buildIndexMap raw) ⟨[], [], []⟩).map viewTBC =
        raw.map viewTBC := by
    have h1 := impKeep_empty_processed_map viewTBC (fun n k c => rfl)
      (buildIndexMap raw) []
    have h2 : (buildIndexMap raw).map (fun p => viewTBC p.2) =
        raw.map viewTBC := by
      rw [buildIndexMap_eq_of_nodup raw hnodup, List.map_map]
      rfl
    calc (addImplicitKeeps (buildIndexMap raw) ⟨[], [], []⟩).map viewTBC
        = ([] : List Component).map viewTBC ++
            (buildIndexMap raw).map (fun p => viewTBC p.2) := h1
      _ = raw.map viewTBC := by rw [h2]; rfl
  refine ⟨?_, ?_, ?_⟩
  · rw [hout, reindex_map_proj viewTBC (fun n c => rfl)]
    have hperm := (List.perm_insertionSort sortKeyLe
      (addImplicitKeeps (buildIndexMap raw) ⟨[], [], []⟩)).map viewTBC
    rw [← hfinview]
    exact hperm
  · rw [hout, reindex_map_proj (fun c => c.bounds) (fun n c => rfl)]
    have hs : List.Sorted sortKeyLe (List.insertionSort sortKeyLe
        (addImplicitKeeps (buildIndexMap raw) ⟨[], [], []⟩)) :=
      List.sorted_insertionSort sortKeyLe _
    exact List.pairwise_map.mpr hs
  · rw [hout, reindex_map_index, reindex_length]

/-- Witness for C7 at a concrete 3-component raw set containing a y-tie:
the output views are a permutation of the input views and the indices are
reassigned 0..N-1. -/
theorem empty_operations_reading_order_witness :
    ((apply_vlm_operations [] c7Raw).1.map viewTBC).Perm (c7Raw.map viewTBC) ∧
    (apply_vlm_operations [] c7Raw).1.map (fun c => c.index) =
      List.range (apply_vlm_operations [] c7Raw).1.length :=
  ⟨(empty_operations_reading_order c7Raw (by decide)).1,
   (empty_operations_reading_order c7Raw (by decide)).2.2⟩

/-! ## C5 -/

/-- A computed correction window lies inside the token lists. -/
theorem computeWindow_bounds (vn onn : List (List String)) (s : Int)
    (rs re : Nat) (h : computeWindow vn onn s = some (rs, re)) :
    rs ≤ re ∧ re < vn.length := by
  unfold computeWindow at h
  by_cases hc : (conflictsAt0 vn onn).isEmpty = true
  · rw [if_pos hc] at h
    cases h
  · rw [if_neg hc] at h
    simp only [Option.some.injEq, Prod.mk.injEq] at h
    obtain ⟨h1, h2⟩ := h
    have hne : conflictsAt0 vn onn ≠ [] := by
      intro hnil
      rw [hnil] at hc
      exact hc rfl
    have hmaxmem := listMaxNat_mem hne
    have hminmax : listMinNat (conflictsAt0 vn onn) ≤
        listMaxNat (conflictsAt0 vn onn) := listMinNat_le hmaxmem
    have hstart : rs ≤ listMinNat (conflictsAt0 vn onn) := by
      rw [← h1]
      exact (extendStart_spec vn onn (s.natAbs * 2)
        (listMinNat (conflictsAt0 vn onn))).1
    have hmax_range : listMaxNat (conflictsAt0 vn onn) ∈
        List.range vn.length := List.mem_of_mem_filter hmaxmem
    have hlt := List.mem_range.mp hmax_range
    omega

/-- `affected` enumerates the window, so it has the window's size. -/
theorem affected_length (rs re : Nat) :
    (affectedOf rs re).length = re + 1 - rs := by
  simp [affectedOf]

/-- `original_vlm` at window position `k` is the pre-correction text at
list index `k + rs`. -/
theorem originalVlm_getD (vt : List String) (rs re k : Nat)
    (hk : k < re + 1 - rs) :
    (originalVlmOf vt rs re).getD k "" = vt.getD (k + rs) "" := by
  rw [originalVlmOf, affectedOf, List.getD_eq_getElem?_getD,
    List.getElem?_map, List.getElem?_map, List.getElem?_range hk]
  rfl

/-- Reading the mapped text list is reading the component's text. -/
theorem mapText_getD (l : List Component) (j : Nat) (hj : j < l.length) :
    (l.map (fun c => c.text)).getD j "" =
      (l.getD j defaultComponent).text := by
  rw [List.getD_eq_getElem?_getD, List.getElem?_map,
    List.getElem?_eq_getElem hj, List.getD_eq_getElem?_getD,
    List.getElem?_eq_getElem hj]
  rfl

/-- The rotation output at index `i` is `rotateIdx` of the input at `i`. -/
theorem applyRotation_getD (omni : IndexMap) (finals : List Component)
    (s : Int) (rs re i : Nat) (hi : i < finals.length) :
    (applyRotation omni finals s rs re).getD i defaultComponent =
      rotateIdx omni
        (originalVlmOf (finals.map (fun c => c.text)) rs re)
        (affectedOf rs re).length s rs re i
        (finals.getD i defaultComponent) := by
  rw [applyRotation, List.getD_eq_getElem?_getD, List.getElem?_mapIdx,
    List.getElem?_eq_getElem hi]
  rw [List.getD_eq_getElem?_getD, List.getElem?_eq_getElem hi]
  rfl

/-- The rotation does not change the list length. -/
theorem applyRotation_length (omni : IndexMap) (finals : List Component)
    (s : Int) (rs re : Nat) :
    (applyRotation omni finals s rs re).length = finals.length := by
  simp [applyRotation]

/-- On the corrective path the validator is exactly the window rotation. -/
theorem validate_eq_applyRotation (finals omni : List Component) (s : Int)
    (rs re : Nat)
    (hn : ¬ finals.length < 3)
    (hs : pick_shift (vnOf finals) (onOf finals omni) = s)
    (hs0 : ¬ s = 0)
    (hw : computeWindow (vnOf finals) (onOf finals omni) s = some (rs, re)) :
    validate_and_fix_text_assignments finals omni =
      applyRotation (buildIndexMap omni) finals s rs re := by
  unfold validate_and_fix_text_assignments
  rw [if_neg hn]
  simp only [hs, hw, if_neg hs0]

/-- A component outside the window is untouched. -/
theorem rotateIdx_outside (omni : IndexMap) (ov : List String) (rn : Nat)
    (s : Int) (rs re i : Nat) (comp : Component)
    (h : ¬(rs ≤ i ∧ i ≤ re)) :
    rotateIdx omni ov rn s rs re i comp = comp := by
  rw [rotateIdx, if_neg h]

/-- Inside the window with an in-window rotated source position, the
component is rewritten to the snapshot text (marked only on change). -/
theorem rotateIdx_inrange (omni : IndexMap) (ov : List String) (rn : Nat)
    (s : Int) (rs re i : Nat) (comp : Component)
    (hwin : rs ≤ i ∧ i ≤ re)
    (hin : 0 ≤ ((i - rs : Nat) : Int) - s ∧
      ((i - rs : Nat) : Int) - s < (rn : Int)) :
    rotateIdx omni ov rn s rs re i comp =
      (if comp.text ≠ ov.getD (((i - rs : Nat) : Int) - s).toNat "" then
        { comp with
          text := ov.getD (((i - rs : Nat) : Int) - s).toNat ""
          text_before_fix := some comp.text
          text_fix := some ("shift_" ++ toString s) }
      else comp) := by
  rw [rotateIdx, if_pos hwin]
  simp only []
  rw [if_pos hin]

/-- Inside the window with an out-of-window rotated source position, the
component falls back to its own original OCR text (unverified flag when
that is blank). -/
theorem rotateIdx_fallback (omni : IndexMap) (ov : List String) (rn : Nat)
    (s : Int) (rs re i : Nat) (comp : Component)
    (hwin : rs ≤ i ∧ i ≤ re)
    (hout : ¬(0 ≤ ((i - rs : Nat) : Int) - s ∧
      ((i - rs : Nat) : Int) - s < (rn : Int))) :
    rotateIdx omni ov rn s rs re i comp =
      (if isBlank (get_source_ocr omni comp) then
        { comp with text_unverified := true }
      else if comp.text ≠ get_source_ocr omni comp then
        { comp with
          text := get_source_ocr omni comp
          text_before_fix := some comp.text
          text_fix := some ("shift_" ++ toString s) }
      else comp) := by
  rw [rotateIdx, if_pos hwin]
  simp only []
  rw [if_neg hout]

/-- C5: when a non-zero shift `s` is selected and a window `[rs, re]` is
computed, the validator preserves the list length, leaves every component
outside the window untouched, and inside the window: a position whose
rotated source position `p - s` lies in the window gets the pre-correction
text of list index `rs + (p - s)`, marked with `_text_before_fix` and
`_text_fix` exactly when this changed the text; a position whose rotated
source falls outside the window falls back to its own original OCR text —
when that is blank, the only change is `_text_unverified := true` (text
untouched), otherwise the text becomes the OCR text with the same marker
discipline. -/
theorem window_rotation_semantics (finals omni : List Component) (s : Int)
    (rs re : Nat)
    (hn : ¬ finals.length < 3)
    (hs : pick_shift (vnOf finals) (onOf finals omni) = s)
    (hs0 : ¬ s = 0)
    (hw : computeWindow (vnOf finals) (onOf finals omni) s = some (rs, re)) :
    (validate_and_fix_text_assignments finals omni).length = finals.length ∧
    (∀ i, ¬(rs ≤ i ∧ i ≤ re) →
      (validate_and_fix_text_assignments finals omni).getD i
          defaultComponent =
        finals.getD i defaultComponent) ∧
    (∀ i, rs ≤ i → i ≤ re →
      (0 ≤ ((i - rs : Nat) : Int) - s ∧
          ((i - rs : Nat) : Int) - s < ((re + 1 - rs : Nat) : Int)) →
      rewrittenTo s (finals.getD i defaultComponent)
        ((validate_and_fix_text_assignments finals omni).getD i
          defaultComponent)
        ((finals.getD (rs + (((i - rs : Nat) : Int) - s).toNat)
          defaultComponent).text)) ∧
    (∀ i, rs ≤ i → i ≤ re →
      ¬(0 ≤ ((i - rs : Nat) : Int) - s ∧
          ((i - rs : Nat) : Int) - s < ((re + 1 - rs : Nat) : Int)) →
      (isBlank (get_source_ocr (buildIndexMap omni)
          (finals.getD i defaultComponent)) = true →
        (validate_and_fix_text_assignments finals omni).getD i
            defaultComponent =
          { finals.getD i defaultComponent with text_unverified := true }) ∧
      (isBlank (get_source_ocr (buildIndexMap omni)
          (finals.getD i defaultComponent)) = false →
        rewrittenTo s (finals.getD i defaultComponent)
          ((validate_and_fix_text_assignments finals omni).getD i
            defaultComponent)
          (get_source_ocr (buildIndexMap omni)
            (finals.getD i defaultComponent)))) := by
  have hlenvn : (vnOf finals).length = finals.length := by simp [vnOf]
  obtain ⟨hrsre, hrelt'⟩ := computeWindow_bounds _ _ _ _ _ hw
  have hrelt : re < finals.length := by rw [← hlenvn]; exact hrelt'
  have hval := validate_eq_applyRotation finals omni s rs re hn hs hs0 hw
  rw [hval]
  refine ⟨applyRotation_length _ _ _ _ _, ?_, ?_, ?_⟩
  · intro i hi
    by_cases hlen : i < finals.length
    · rw [applyRotation_getD _ _ _ _ _ _ hlen,
        rotateIdx_outside _ _ _ _ _ _ _ _ hi]
    · have h1 : (applyRotation (buildIndexMap omni) finals s rs re).length ≤
          i := by
        rw [applyRotation_length]
        omega
      rw [List.getD_eq_getElem?_getD, List.getElem?_eq_none h1,
        List.getD_eq_getElem?_getD, List.getElem?_eq_none (by omega)]
  · intro i h1 h2 hin
    have hilt : i < finals.length := by omega
    rw [applyRotation_getD _ _ _ _ _ _ hilt]
    have hin' : 0 ≤ ((i - rs : Nat) : Int) - s ∧
        ((i - rs : Nat) : Int) - s < (((affectedOf rs re).length : Nat) : Int) := by
      refine ⟨hin.1, ?_⟩
      rw [affected_length]
      exact hin.2
    rw [rotateIdx_inrange _ _ _ _ _ _ _ _ ⟨h1, h2⟩ hin']
    have htext : (originalVlmOf (finals.map (fun c => c.text)) rs re).getD
        (((i - rs : Nat) : Int) - s).toNat "" =
        (finals.getD (rs + (((i - rs : Nat) : Int) - s).toNat)
          defaultComponent).text := by
      have hk : (((i - rs : Nat) : Int) - s).toNat < re + 1 - rs := by
        omega
      rw [originalVlm_getD _ _ _ _ hk, Nat.add_comm]
      apply mapText_getD
      omega
    rw [htext]
    by_cases hch : (finals.getD i defaultComponent).text =
        (finals.getD (rs + (((i - rs : Nat) : Int) - s).toNat)
          defaultComponent).text
    · rw [if_neg (not_not_intro hch)]
      exact ⟨hch, fun _ => rfl, fun hne => absurd hch hne⟩
    · rw [if_pos hch]
      exact ⟨rfl, fun heq => absurd heq hch, fun _ => rfl⟩
  · intro i h1 h2 hout
    have hilt : i < finals.length := by omega
    rw [applyRotation_getD _ _ _ _ _ _ hilt]
    have hout' : ¬(0 ≤ ((i - rs : Nat) : Int) - s ∧
        ((i - rs : Nat) : Int) - s < (((affectedOf rs re).length : Nat) : Int)) := by
      rw [affected_length]
      exact hout
    rw [rotateIdx_fallback _ _ _ _ _ _ _ _ ⟨h1, h2⟩ hout']
    by_cases hbl : isBlank (get_source_ocr (buildIndexMap omni)
        (finals.getD i defaultComponent)) = true
    · rw [if_pos hbl]
      refine ⟨fun _ => rfl, fun hbf => ?_⟩
      rw [hbl] at hbf
      cases hbf
    · rw [if_neg hbl]
      refine ⟨fun hbt => absurd hbt hbl, fun _ => ?_⟩
      by_cases hch : (finals.getD i defaultComponent).text =
          get_source_ocr (buildIndexMap omni) (finals.getD i defaultComponent)
      · rw [if_neg (not_not_intro hch)]
        exact ⟨hch, fun _ => rfl, fun hne => absurd hch hne⟩
      · rw [if_pos hch]
        exact ⟨rfl, fun heq => absurd heq hch, fun _ => rfl⟩

/-- Witness for C5 on a concrete 3-component list with selected shift 1 and
window [0, 2]: the in-window position 1 takes the pre-correction text of
position 0, and the output length is preserved. -/
theorem window_rotation_semantics_witness :
    (validate_and_fix_text_assignments c5Fin c5Omni).length = c5Fin.length ∧
    ((validate_and_fix_text_assignments c5Fin c5Omni).getD 1
        defaultComponent).text =
      (c5Fin.getD 0 defaultComponent).text :=
  ⟨(window_rotation_semantics c5Fin c5Omni 1 0 2 (by decide) (by decide)
      (by decide) (by decide)).1,
   ((window_rotation_semantics c5Fin c5Omni 1 0 2 (by decide) (by decide)
      (by decide) (by decide)).2.2.1 1 (by decide) (by decide)
      (by decide)).1⟩

end OmniVlmFusion
